import Mathlib

/-!
Verification model of the transactional subtitle-translation pipeline in
trans_folder.py.  Pure functions of the source (the retry wrappers, the term
mask/unmask regex substitutions) are embedded as Lean functions; the stateful
pipeline (TransactionLog.rollback, translate_batch, batch_translate) is
embedded as explicit state passing over a functional filesystem.  External
collaborators (googletrans, pysrt, the thread pool) are abstracted at their
call boundary exactly as the source consumes them: the translator is a stub
giving each call's outcome, pysrt is a parse that either yields a cue list or
fails, and the pool's scheduling freedom is an explicit schedule parameter.
-/

namespace TransFolder

/-! ## Characters and the regex fragment used by the source

The source builds two regexes from the loaded term list (lines 416 and
425-430 of trans_folder.py):

  mask:   re.compile(r'\b(' + '|'.join(map(re.escape, it_terms)) + r')\b', re.IGNORECASE)
          substituting each match m by "__" + m + "__",
  unmask: re.sub(r'__(' + '|'.join(map(re.escape, it_terms)) + r')__', r'\1', s, re.IGNORECASE).

Both patterns are an alternation of escaped literals with fixed context, so
the backtracking behaviour of the Python engine specialises to: at each
scan position, try the alternatives in list order; an alternative succeeds
if the literal matches case-insensitively at that position and the fixed
context (a word boundary for mask, a literal "__" for unmask) follows;
re.sub emits non-matching characters, advancing one position, and continues
right after each match.  ASCII case folding models re.IGNORECASE on the
ASCII inputs the tool handles.
-/

/-- The ASCII upper/lower case table. -/
def lowerPairs : List (Char × Char) :=
  [('A', 'a'), ('B', 'b'), ('C', 'c'), ('D', 'd'), ('E', 'e'), ('F', 'f'),
   ('G', 'g'), ('H', 'h'), ('I', 'i'), ('J', 'j'), ('K', 'k'), ('L', 'l'),
   ('M', 'm'), ('N', 'n'), ('O', 'o'), ('P', 'p'), ('Q', 'q'), ('R', 'r'),
   ('S', 's'), ('T', 't'), ('U', 'u'), ('V', 'v'), ('W', 'w'), ('X', 'x'),
   ('Y', 'y'), ('Z', 'z')]

/-- ASCII lower-casing of a character, modelling re.IGNORECASE folding. -/
def lowerChar (c : Char) : Char :=
  ((lowerPairs.find? (fun p => p.1 == c)).map (fun p => p.2)).getD c

/-- Case-insensitive character equality (re.IGNORECASE). -/
def ciEqChar (a b : Char) : Bool := lowerChar a == lowerChar b

/-- Python regex word character: alphanumeric or underscore. -/
def isWordChar (c : Char) : Bool := c.isAlphanum || c == '_'

/-- Word-character test on an optional character; the ends of the string
count as non-word positions. -/
def wordAt : Option Char → Bool
  | none => false
  | some c => isWordChar c

/-- The word boundary test of the regex anchor between two adjacent
positions (either may be an end of the string). -/
def hasBoundary (a b : Option Char) : Bool := wordAt a != wordAt b

/-- Case-insensitive test that the pattern list is a prefix of the text
list, one character of the pattern against one character of the text. -/
def ciMatches : List Char → List Char → Bool
  | [], _ => true
  | _ :: _, [] => false
  | a :: as, b :: bs => ciEqChar a b && ciMatches as bs

/-- One position of the mask pattern: try the term alternatives in list
order on the text suffix s; an alternative t succeeds when it matches
case-insensitively and a word boundary follows the matched span.  Returns
the actually matched characters (group 0 of the regex) and the remainder.
The leading word boundary of the pattern is checked by the caller.  Empty
alternatives are skipped: load_it_terms never produces an empty term. -/
def tryMaskTerms (terms : List (List Char)) (s : List Char) :
    Option (List Char × List Char) :=
  match terms with
  | [] => none
  | t :: ts =>
    if t = [] then tryMaskTerms ts s
    else if ciMatches t s &&
        hasBoundary ((s.take t.length).getLast?) ((s.drop t.length).head?) then
      some (s.take t.length, s.drop t.length)
    else tryMaskTerms ts s

/-- One scan step of re.sub for the mask pattern at the current position:
the position matches when a word boundary precedes it and some alternative
matches with a trailing boundary. -/
def maskStep (terms : List (List Char)) (prev : Option Char) (c : Char)
    (cs : List Char) : Option (List Char × List Char) :=
  if hasBoundary prev (some c) then tryMaskTerms terms (c :: cs) else none

/-- The left-to-right scan of re.sub for the mask pattern, replacing each
match m by "__" ++ m ++ "__" and continuing after it; prev is the character
before the current position (none at the start).  Fuel bounds the
recursion; maskChars supplies fuel equal to the text length, which the
termination lemmas below show is enough. -/
def maskGo (terms : List (List Char)) : Nat → Option Char → List Char → List Char
  | 0, _, s => s
  | _ + 1, _, [] => []
  | fuel + 1, prev, c :: cs =>
    match maskStep terms prev c cs with
    | some (m, r) => '_' :: '_' :: (m ++ '_' :: '_' :: maskGo terms fuel m.getLast? r)
    | none => c :: maskGo terms fuel (some c) cs

/-- pattern.sub(lambda x: f-string wrapping x.group() in double underscores, text)
from translate_subtitle_file, over character lists. -/
def maskChars (terms : List (List Char)) (s : List Char) : List Char :=
  maskGo terms s.length none s

/-- Recognise a literal "__" at the head of the list, giving the remainder. -/
def dropUU : List Char → Option (List Char)
  | c1 :: c2 :: r => if c1 = '_' then if c2 = '_' then some r else none else none
  | _ => none

/-- One position of the unmask pattern after its leading "__": try the
alternatives in order; an alternative succeeds when it matches
case-insensitively and a literal "__" follows.  Returns the matched group
(the actual text characters, which re.sub re-emits for the replacement \1)
and the remainder after the trailing "__". -/
def tryUnmaskTerms (terms : List (List Char)) (s : List Char) :
    Option (List Char × List Char) :=
  match terms with
  | [] => none
  | t :: ts =>
    if t = [] then tryUnmaskTerms ts s
    else if ciMatches t s then
      match dropUU (s.drop t.length) with
      | some r => some (s.take t.length, r)
      | none => tryUnmaskTerms ts s
    else tryUnmaskTerms ts s

/-- One scan step of re.sub for the unmask pattern at the current
position: a match needs a literal "__", then an alternative, then "__". -/
def unmaskStep (terms : List (List Char)) (c : Char) (cs : List Char) :
    Option (List Char × List Char) :=
  if c = '_' then
    match cs with
    | c2 :: cs2 => if c2 = '_' then tryUnmaskTerms terms cs2 else none
    | [] => none
  else none

/-- The left-to-right scan of re.sub for the unmask pattern: the
replacement emits the matched group and the scan continues after the
trailing "__"; on failure the scan emits one character and advances. -/
def unmaskGo (terms : List (List Char)) : Nat → List Char → List Char
  | 0, s => s
  | _ + 1, [] => []
  | fuel + 1, c :: cs =>
    match unmaskStep terms c cs with
    | some (m, r) => m ++ unmaskGo terms fuel r
    | none => c :: unmaskGo terms fuel cs

/-- re.sub of the unmask pattern over character lists. -/
def unmaskChars (terms : List (List Char)) (s : List Char) : List Char :=
  unmaskGo terms s.length s

/-- The masking substitution of translate_subtitle_file (line 420), on
strings. -/
def maskStr (terms : List String) (s : String) : String :=
  String.mk (maskChars (terms.map String.toList) s.toList)

/-- The unmasking substitution of translate_subtitle_file (lines 425-430),
on strings. -/
def unmaskStr (terms : List String) (s : String) : String :=
  String.mk (unmaskChars (terms.map String.toList) s.toList)

/-! ## The retry wrappers (trans_folder.py lines 388-412)

translate_with_retry and hf_translate_with_retry loop `for attempt in
range(max_retries)`; each iteration calls the translator, returning its
result on success; on failure the final iteration re-raises, other
iterations sleep(uniform(1, 3)) and continue; the trailing `return text`
runs only when the range is empty.  The translator is a stub mapping the
attempt number to its outcome (some t = the call returned t, none = it
raised); uniform(1, 3) is an oracle giving the delay drawn before each
retry.  The trace records the outcome (ok = returned value, error = the
exception escaped), the number of translator calls, and the slept delays. -/

/-- Observable trace of one retry-wrapper invocation. -/
structure RetryTrace where
  result : Except Unit String
  calls : Nat
  sleeps : List ℚ
deriving Repr

/-- The retry loop body over the remaining attempt indices. -/
def retryGo (call : Nat → Option String) (delay : Nat → ℚ) (text : String)
    (maxR : Nat) : List Nat → Nat → List ℚ → RetryTrace
  | [], calls, acc => ⟨.ok text, calls, acc.reverse⟩
  | a :: rest, calls, acc =>
    match call a with
    | some t => ⟨.ok t, calls + 1, acc.reverse⟩
    | none =>
      if a + 1 = maxR then ⟨.error (), calls + 1, acc.reverse⟩
      else retryGo call delay text maxR rest (calls + 1) (delay a :: acc)

/-- translate_with_retry (lines 388-399): the Google-translate retry
wrapper. max_retries is an integer as in Python; range of a non-positive
bound is empty. -/
def translate_with_retry (call : Nat → Option String) (text : String)
    (max_retries : Int) (delay : Nat → ℚ) : RetryTrace :=
  retryGo call delay text max_retries.toNat (List.range max_retries.toNat) 0 []

/-- hf_translate_with_retry (lines 401-412): identical control flow, the
translator call made through the HF pipeline stub. -/
def hf_translate_with_retry (call : Nat → Option String) (text : String)
    (max_retries : Int) (delay : Nat → ℚ) : RetryTrace :=
  retryGo call delay text max_retries.toNat (List.range max_retries.toNat) 0 []

/-! ## Filesystem, file contents, fingerprints, and the transaction log -/

/-- Content of a subtitle file as pysrt sees it: either a parseable cue
list (the text of each cue, in order) or bytes pysrt.open raises on. -/
inductive SrtContent where
  | good (cues : List String)
  | bad (raw : String)
deriving DecidableEq, Repr

/-- A functional filesystem: absolute path to file content. -/
abbrev FS : Type := String → Option SrtContent

/-- Python-level exceptions surfaced by the pipeline. -/
inductive PyErr where
  | permissionError
  | typeError
  | nameError
  | ioError
  | parseError
  | userCancel
  | rollbackError
deriving DecidableEq, Repr

/-- The empty filesystem. -/
def fsEmpty : FS := fun _ => none

/-- Write (create or overwrite) a file. -/
def fsWrite (p : String) (v : SrtContent) (fs : FS) : FS :=
  fun q => if q = p then some v else fs q

/-- Remove a file. -/
def fsErase (p : String) (fs : FS) : FS :=
  fun q => if q = p then none else fs q

/-- shutil.move for files: fails (FileNotFoundError) when src is absent,
otherwise removes src and (over)writes dst with its content. -/
def fsMove (src dst : String) (fs : FS) : Option FS :=
  match fs src with
  | none => none
  | some v => some (fsWrite dst v (fsErase src fs))

/-- compute_checksum (lines 370-375): an md5 digest of the file bytes,
modelled as an injective fingerprint of the content. -/
def compute_checksum (c : SrtContent) : SrtContent := c

/-- A transaction-log entry as stored by TransactionLog.add_entry:
(action, src, dest) with action one of "copy", "move", "delete". -/
abbrev LogEntry : Type := String × String × String

/-- The body of TransactionLog.rollback (lines 101-107) over an
already-reversed entry list: a "copy" entry moves dest back onto src when
dest exists; a "move" entry executes shutil.move(src, dest); other actions
("delete") have no branch.  A raised shutil.move error propagates (there
is no try/except in the source), abandoning the remaining entries. -/
def rollbackSteps : List LogEntry → FS → Option PyErr × FS
  | [], fs => (none, fs)
  | (a, src, dst) :: rest, fs =>
    if a = "copy" then
      match fs dst with
      | some _ =>
        match fsMove dst src fs with
        | some fs' => rollbackSteps rest fs'
        | none => (some .rollbackError, fs)
      | none => rollbackSteps rest fs
    else if a = "move" then
      match fsMove src dst fs with
      | some fs' => rollbackSteps rest fs'
      | none => (some .rollbackError, fs)
    else rollbackSteps rest fs

/-- TransactionLog.rollback: process the log in reverse insertion order. -/
def TransactionLog_rollback (log : List LogEntry) (fs : FS) : Option PyErr × FS :=
  rollbackSteps log.reverse fs

/-! ## The worker: translate_subtitle_file and translate_batch -/

/-- The per-cue transformation of translate_subtitle_file (lines 418-433):
mask, call the retry wrapper, unmask; transform abstracts the retry
wrapper's outcome on the masked text (some t = it returned t, none = it
raised after exhausting the retries).  The surrounding try/except catches
any exception and keeps the original text (`sub.text = sub.text`). -/
def processCue (transform : String → Option String) (terms : List String)
    (text : String) : String :=
  match transform (maskStr terms text) with
  | some translated => unmaskStr terms translated
  | none => text

/-- translate_subtitle_file (lines 414-434): open the source file with
pysrt (raising on a missing or unparseable file), transform every cue
under the per-cue exception guard, and save the result to output_path.
Translation failures never escape; only open/parse failures do. -/
def translate_subtitle_file (transform : String → Option String)
    (terms : List String) (fs : FS) (inputPath outputPath : String) :
    Except PyErr FS :=
  match fs inputPath with
  | none => .error .ioError
  | some (.bad _) => .error .parseError
  | some (.good cues) =>
    .ok (fsWrite outputPath (.good (cues.map (processCue transform terms))) fs)

/-- Outcome of one translate_batch call: err is the exception that escaped
(if any), results the accumulated (success, rel_path, temp_output_path)
triples, with the filesystem and the shared transaction log threaded
through. -/
structure TBOut where
  err : Option PyErr
  results : List (Bool × String × String)
  fs : FS
  log : List LogEntry

/-- The loop of translate_batch (lines 436-456).  Per file: check the
cancel flag (raising Exception("Nguoi dung huy") when set), translate into
temp_folder/rel_path, record a success triple and append a
("move", temp, full) log entry.  On any exception the except block first
evaluates the f-string naming the undefined variable `file`, so a
NameError replaces the original exception and the add_entry("delete", ...)
on the following line never runs; the NameError propagates (`raise`). -/
def translate_batchGo (transform : String → Option String)
    (terms : List String) (tempFolder : String) (cancel : Bool) :
    List (String × String) → FS → List LogEntry →
    List (Bool × String × String) → TBOut
  | [], fs, log, acc => ⟨none, acc.reverse, fs, log⟩
  | (rel, full) :: rest, fs, log, acc =>
    if cancel then ⟨some .userCancel, acc.reverse, fs, log⟩
    else
      match translate_subtitle_file transform terms fs full
          (tempFolder ++ "/" ++ rel) with
      | .error _ => ⟨some .nameError, acc.reverse, fs, log⟩
      | .ok fs' =>
        translate_batchGo transform terms tempFolder cancel rest fs'
          (log ++ [("move", tempFolder ++ "/" ++ rel, full)])
          ((true, rel, tempFolder ++ "/" ++ rel) :: acc)

/-- translate_batch on one chunk of (rel_path, full_path) tasks. -/
def translate_batch (transform : String → Option String)
    (terms : List String) (tempFolder : String) (cancel : Bool)
    (chunk : List (String × String)) (fs : FS) (log : List LogEntry) : TBOut :=
  translate_batchGo transform terms tempFolder cancel chunk fs log []

/-! ## The scheduler: batch_translate (lines 458-574) -/

/-- The fingerprint store: the JSON object of translated_files.json as a
relative-path/fingerprint association list. -/
abbrev Store : Type := List (String × SrtContent)

/-- Dictionary lookup in the store. -/
def storeLookup (st : Store) (k : String) : Option SrtContent :=
  (st.find? (fun p => p.1 == k)).map (fun p => p.2)

/-- The discovery filter (lines 475-485) applied to the walked candidate
list: fingerprint each file (an unreadable file raises IOError out of the
run) and drop those whose stored fingerprint equals the current one. -/
def filterUnchanged (fs : FS) (store : Store) :
    List (String × String) → Except PyErr (List (String × String))
  | [] => .ok []
  | (rel, full) :: rest =>
    match fs full with
    | none => .error .ioError
    | some content =>
      match filterUnchanged fs store rest with
      | .error e => .error e
      | .ok l =>
        if storeLookup store rel = some (compute_checksum content) then .ok l
        else .ok ((rel, full) :: l)

/-- files_chunks (lines 490-493): consecutive slices of size n. -/
def chunksGo (n : Nat) : Nat → List α → List (List α)
  | 0, _ => []
  | _ + 1, [] => []
  | fuel + 1, l => l.take n :: chunksGo n fuel (l.drop n)

/-- Partition a list into chunks of size n (n = CHUNK_SIZE, default 4). -/
def chunkList (n : Nat) (l : List α) : List (List α) :=
  if n = 0 then [] else chunksGo n l.length l

/-- The chunks actually handed to the workers.  Each submitted closure
(line 504-513) is `lambda: translate_batch(chunk, ...)`: it captures the
loop VARIABLE chunk, not its value, and reads it when the worker thread
runs.  A schedule f records which iteration's value future i observes;
thread timing only guarantees i ≤ f i < number of chunks (the value read
is the one most recently assigned, at or after the submitting
iteration). -/
def executedChunks (chunks : List (List α)) (f : Nat → Nat) : List (List α) :=
  (List.range chunks.length).map (fun i => chunks.getD (f i) [])

/-- State after the future-collection loop (lines 516-532). -/
structure PoolOut where
  err : Option PyErr
  fs : FS
  log : List LogEntry
  resultsLists : List (List (Bool × String × String))

/-- Collect future results in submission order (the source iterates the
futures list and future.result() re-raises the worker's exception).  Each
success triple gets a second ("move", temp, input_folder/rel) entry
appended to the shared log (lines 520-525); the failure branch only logs.
Worker effects are serialised in collection order: the claims settled on
this model involve a single in-flight chunk, where this is exact. -/
def runFutures (transform : String → Option String) (terms : List String)
    (tempFolder inputFolder : String) (cancel : Bool)
    (chunks : List (List (String × String))) (sched : Nat → Nat) :
    List Nat → FS → List LogEntry → PoolOut
  | [], fs, log => ⟨none, fs, log, []⟩
  | i :: rest, fs, log =>
    if cancel then ⟨none, fs, log, []⟩
    else
      let tb := translate_batch transform terms tempFolder cancel
        (chunks.getD (sched i) []) fs log
      match tb.err with
      | some e => ⟨some e, tb.fs, tb.log, []⟩
      | none =>
        let log2 := tb.log ++ tb.results.filterMap (fun r =>
          if r.1 then some (("move", r.2.2, inputFolder ++ "/" ++ r.2.1) : LogEntry)
          else none)
        let tail := runFutures transform terms tempFolder inputFolder cancel
          chunks sched rest tb.fs log2
        ⟨tail.err, tail.fs, tail.log, tb.results :: tail.resultsLists⟩

/-- Outcome of one batch_translate run: err is the exception escaping the
call (if any), with the filesystem, the content of translated_files.json
(none = the file does not exist), and the final transaction log. -/
structure RunOut where
  err : Option PyErr
  fs : FS
  storeFile : Option Store
  log : List LogEntry

/-- input_folder.startswith("/usr") from line 563, as a structural
character-list prefix test. -/
def strStartsWith (s pre : String) : Bool :=
  pre.toList.isPrefixOf s.toList

/-- batch_translate (lines 458-574), faithful to the source's control flow:

1. os.access write check (460): not writable raises PermissionError.
2. Discovery with fingerprint skip (475-485); discovered abstracts the
   os.walk candidate list (.srt files outside EXCLUDED_DIRS, in walk
   order).  No remaining file returns early (486-488).
3. Chunking (490-493) and submission (497-514): the cancel flag is tested
   before each submission; a constant flag means all chunks are submitted
   or none.  cancelFlag models the parameter: none when no flag object was
   passed (the CLI path), some b for a threading.Event whose is_set()
   returns b.
4. Result collection (516-532); an escaping exception reaches the except
   (533-536), which calls TransactionLog.rollback and re-raises (an error
   inside rollback itself replaces the exception).
5. Line 537 evaluates `all_success and not (cancel_flag and cancel_flag())`:
   all_success is never assigned False, and when a flag object was passed
   `cancel_flag()` CALLS the Event, raising TypeError; only with no flag
   does the commit branch run.  Its loop iterates over processed_files,
   which is never appended to, so it commits nothing, and then
   save_translated_checksums writes the (unmodified) store (555).  The
   else branch (557-562) is unreachable.
6. The protected-path guard (563-565) runs only HERE, after all the work:
   with /usr/lib present, an input folder under /usr raises
   PermissionError.
7. The trailing block (567-574) reads the undefined name rollback_manager
   when OVERWRITE_ORIGINAL is set, and the except handler reads it again,
   so a NameError escapes; with overwrite off the dead branch body is
   skipped and the call returns normally. -/
def batch_translate (writable usrLibExists overwrite : Bool)
    (transform : String → Option String) (terms : List String)
    (chunkSize : Nat) (sched : Nat → Nat) (inputFolder : String)
    (discovered : List (String × String)) (cancelFlag : Option Bool)
    (fs0 : FS) (storeFile0 : Option Store) : RunOut :=
  if ¬ writable then ⟨some .permissionError, fs0, storeFile0, []⟩
  else
    let tempFolder := inputFolder ++ "/temp_translated"
    let store := storeFile0.getD []
    match filterUnchanged fs0 store discovered with
    | .error e => ⟨some e, fs0, storeFile0, []⟩
    | .ok files_to_process =>
      if files_to_process.isEmpty then ⟨none, fs0, storeFile0, []⟩
      else
        let chunks := chunkList chunkSize files_to_process
        let cancelSet := cancelFlag.getD false
        let submitted := if cancelSet then 0 else chunks.length
        let pool := runFutures transform terms tempFolder inputFolder
          cancelSet chunks sched (List.range submitted) fs0 []
        match pool.err with
        | some e =>
          match TransactionLog_rollback pool.log pool.fs with
          | (some re, fs') => ⟨some re, fs', storeFile0, pool.log⟩
          | (none, fs') => ⟨some e, fs', storeFile0, pool.log⟩
        | none =>
          match cancelFlag with
          | some _ => ⟨some .typeError, pool.fs, storeFile0, pool.log⟩
          | none =>
            let storeFile' := some store
            if usrLibExists && strStartsWith inputFolder "/usr" then
              ⟨some .permissionError, pool.fs, storeFile', pool.log⟩
            else if overwrite then
              ⟨some .nameError, pool.fs, storeFile', pool.log⟩
            else ⟨none, pool.fs, storeFile', pool.log⟩

/-! ## Claim theorems -/

/-- Claim C1 (refuted, code bug): the claim states that rollback() inverts
every logged entry (a Move entry moves dst back to src) and afterwards
every original source file is byte-identical to its pre-run content.  In
the source, the "move" branch of rollback executes shutil.move(src, dest)
FORWARD: for the ("move", temp_output_path, full_path) entry logged by
translate_batch it moves the temp output ONTO the original.  Concretely,
with original a.srt containing "hello" and a temp output containing
"xin chao", rollback completes without error and leaves the original equal
to the temp content, not its pre-run content. -/
theorem C1_rollback_reexecutes_move :
    (TransactionLog_rollback
        [("move", "/media/subs/temp_translated/a.srt", "/media/subs/a.srt")]
        (fsWrite "/media/subs/temp_translated/a.srt" (.good ["xin chao"])
          (fsWrite "/media/subs/a.srt" (.good ["hello"]) fsEmpty))).1 = none ∧
    (TransactionLog_rollback
        [("move", "/media/subs/temp_translated/a.srt", "/media/subs/a.srt")]
        (fsWrite "/media/subs/temp_translated/a.srt" (.good ["xin chao"])
          (fsWrite "/media/subs/a.srt" (.good ["hello"]) fsEmpty))).2
      "/media/subs/a.srt" = some (.good ["xin chao"]) ∧
    (fsWrite "/media/subs/temp_translated/a.srt" ((.good ["xin chao"]) : SrtContent)
        (fsWrite "/media/subs/a.srt" (.good ["hello"]) fsEmpty))
      "/media/subs/a.srt" = some (.good ["hello"]) := by decide

/-- Claim C2 (refuted, code bug): in an overwrite-mode run where the one
task succeeds and cancellation is never requested (no flag passed, the CLI
path), the commit loop iterates over processed_files, which batch_translate
never appends to, so the run commits nothing: the original still holds its
pre-run content, no backup/a.srt.bak exists, the temp output is left in
temp_translated, the saved fingerprint store has no entry for the file, and
the run then raises NameError from the undefined rollback_manager block.
The claim requires overwrite + backup + a store entry per processed file. -/
theorem C2_commit_loop_never_runs :
    (batch_translate true true true (fun s => some (s ++ "!")) ["API"] 4
        (fun i => i) "/media/subs" [("a.srt", "/media/subs/a.srt")] none
        (fsWrite "/media/subs/a.srt" (.good ["hello"]) fsEmpty) none).err
        = some .nameError ∧
    (batch_translate true true true (fun s => some (s ++ "!")) ["API"] 4
        (fun i => i) "/media/subs" [("a.srt", "/media/subs/a.srt")] none
        (fsWrite "/media/subs/a.srt" (.good ["hello"]) fsEmpty) none).fs
        "/media/subs/a.srt" = some (.good ["hello"]) ∧
    (batch_translate true true true (fun s => some (s ++ "!")) ["API"] 4
        (fun i => i) "/media/subs" [("a.srt", "/media/subs/a.srt")] none
        (fsWrite "/media/subs/a.srt" (.good ["hello"]) fsEmpty) none).fs
        "/media/subs/backup/a.srt.bak" = none ∧
    (batch_translate true true true (fun s => some (s ++ "!")) ["API"] 4
        (fun i => i) "/media/subs" [("a.srt", "/media/subs/a.srt")] none
        (fsWrite "/media/subs/a.srt" (.good ["hello"]) fsEmpty) none).fs
        "/media/subs/temp_translated/a.srt" = some (.good ["hello!"]) ∧
    (batch_translate true true true (fun s => some (s ++ "!")) ["API"] 4
        (fun i => i) "/media/subs" [("a.srt", "/media/subs/a.srt")] none
        (fsWrite "/media/subs/a.srt" (.good ["hello"]) fsEmpty) none).storeFile
        = some [] := by decide

/-- Claim C3 (refuted, code bug): with a translator stub that fails every
retry attempt (translate_with_retry raises after exhausting its attempts),
the per-cue try/except in translate_subtitle_file catches the exception and
keeps the original text, and translate_batch then records the task as a
SUCCESS triple with the untranslated cue written to the temp output — the
exact outcome the claim says never happens. -/
theorem C3_failed_translation_reported_success :
    (translate_batch
        (fun s =>
          match (translate_with_retry (fun _ => none) s 3 (fun _ => 2)).result with
          | .ok t => some t
          | .error _ => none)
        ["API"] "/media/subs/temp_translated" false
        [("a.srt", "/media/subs/a.srt")]
        (fsWrite "/media/subs/a.srt" (.good ["hello world"]) fsEmpty) []).err
        = none ∧
    (translate_batch
        (fun s =>
          match (translate_with_retry (fun _ => none) s 3 (fun _ => 2)).result with
          | .ok t => some t
          | .error _ => none)
        ["API"] "/media/subs/temp_translated" false
        [("a.srt", "/media/subs/a.srt")]
        (fsWrite "/media/subs/a.srt" (.good ["hello world"]) fsEmpty) []).results
        = [(true, "a.srt", "/media/subs/temp_translated/a.srt")] ∧
    (translate_batch
        (fun s =>
          match (translate_with_retry (fun _ => none) s 3 (fun _ => 2)).result with
          | .ok t => some t
          | .error _ => none)
        ["API"] "/media/subs/temp_translated" false
        [("a.srt", "/media/subs/a.srt")]
        (fsWrite "/media/subs/a.srt" (.good ["hello world"]) fsEmpty) []).fs
        "/media/subs/temp_translated/a.srt" = some (.good ["hello world"]) := by
  decide

/-- Claim C5 (refuted, code bug): a run over two files in one chunk whose
FIRST file is unparseable.  The except block of translate_batch evaluates
the f-string naming the undefined variable `file` and re-raises, so the
whole chunk aborts: the run fails (with NameError), the second file is
never processed (no temp output for it), the delete entry is never logged
(the log is empty), and batch_translate's except invokes rollback before
re-raising.  The claim requires the parse error to fail only that file's
task, leave the run running, and trigger no rollback. -/
theorem C5_parse_error_aborts_run :
    (batch_translate true true true (fun s => some (s ++ "!")) ["API"] 4
        (fun i => i) "/media/subs"
        [("a.srt", "/media/subs/a.srt"), ("b.srt", "/media/subs/b.srt")] none
        (fsWrite "/media/subs/b.srt" (.good ["world"])
          (fsWrite "/media/subs/a.srt" (.bad "garbage") fsEmpty)) none).err
        = some .nameError ∧
    (batch_translate true true true (fun s => some (s ++ "!")) ["API"] 4
        (fun i => i) "/media/subs"
        [("a.srt", "/media/subs/a.srt"), ("b.srt", "/media/subs/b.srt")] none
        (fsWrite "/media/subs/b.srt" (.good ["world"])
          (fsWrite "/media/subs/a.srt" (.bad "garbage") fsEmpty)) none).fs
        "/media/subs/temp_translated/b.srt" = none ∧
    (batch_translate true true true (fun s => some (s ++ "!")) ["API"] 4
        (fun i => i) "/media/subs"
        [("a.srt", "/media/subs/a.srt"), ("b.srt", "/media/subs/b.srt")] none
        (fsWrite "/media/subs/b.srt" (.good ["world"])
          (fsWrite "/media/subs/a.srt" (.bad "garbage") fsEmpty)) none).storeFile
        = none := by decide

/-- Claim C7 (refuted, code bug): for a WRITABLE input folder under /usr
(with /usr/lib present), batch_translate raises PermissionError — but only
at line 563, AFTER discovery read the file, the worker transformed it and
wrote the temp output, and the fingerprint store file was saved.  The
claim requires the failure to happen before any file is read, transformed,
backed up, or written.  (The os.access writability check at line 460 is,
by contrast, performed first.) -/
theorem C7_protected_path_guard_after_work :
    (batch_translate true true true (fun s => some (s ++ "!")) ["API"] 4
        (fun i => i) "/usr/share/subs" [("a.srt", "/usr/share/subs/a.srt")] none
        (fsWrite "/usr/share/subs/a.srt" (.good ["hello"]) fsEmpty) none).err
        = some .permissionError ∧
    (batch_translate true true true (fun s => some (s ++ "!")) ["API"] 4
        (fun i => i) "/usr/share/subs" [("a.srt", "/usr/share/subs/a.srt")] none
        (fsWrite "/usr/share/subs/a.srt" (.good ["hello"]) fsEmpty) none).fs
        "/usr/share/subs/temp_translated/a.srt" = some (.good ["hello!"]) ∧
    (batch_translate true true true (fun s => some (s ++ "!")) ["API"] 4
        (fun i => i) "/usr/share/subs" [("a.srt", "/usr/share/subs/a.srt")] none
        (fsWrite "/usr/share/subs/a.srt" (.good ["hello"]) fsEmpty) none).storeFile
        = some [] := by decide

/-- Claim C8 (refuted, code bug): five discovered files are chunked (size
4) into two chunks.  Every submitted lambda captures the loop VARIABLE
chunk; under the legal thread schedule in which both workers start after
the submission loop finished (both observe the final iteration's value,
schedule i such that i ≤ 1 < 2 for every future i), both worker
invocations consume the SECOND chunk: the first chunk is consumed by no
worker, the second by two, so its file has two writers and the first
chunk's files are never processed — refuting "each submitted chunk is
consumed by exactly one worker invocation" and "every discovered
non-skipped file is processed exactly once". -/
theorem C8_late_binding_chunk_capture :
    (∀ i, i < (chunkList 4 [("a.srt", "/m/a.srt"), ("b.srt", "/m/b.srt"),
        ("c.srt", "/m/c.srt"), ("d.srt", "/m/d.srt"), ("e.srt", "/m/e.srt")]).length →
      i ≤ 1 ∧ 1 < (chunkList 4 [("a.srt", "/m/a.srt"), ("b.srt", "/m/b.srt"),
        ("c.srt", "/m/c.srt"), ("d.srt", "/m/d.srt"), ("e.srt", "/m/e.srt")]).length) ∧
    executedChunks (chunkList 4 [("a.srt", "/m/a.srt"), ("b.srt", "/m/b.srt"),
        ("c.srt", "/m/c.srt"), ("d.srt", "/m/d.srt"), ("e.srt", "/m/e.srt")])
        (fun _ => 1) =
      [[("e.srt", "/m/e.srt")], [("e.srt", "/m/e.srt")]] ∧
    [("a.srt", "/m/a.srt"), ("b.srt", "/m/b.srt"), ("c.srt", "/m/c.srt"),
        ("d.srt", "/m/d.srt")] ∉
      executedChunks (chunkList 4 [("a.srt", "/m/a.srt"), ("b.srt", "/m/b.srt"),
        ("c.srt", "/m/c.srt"), ("d.srt", "/m/d.srt"), ("e.srt", "/m/e.srt")])
        (fun _ => 1) ∧
    (executedChunks (chunkList 4 [("a.srt", "/m/a.srt"), ("b.srt", "/m/b.srt"),
        ("c.srt", "/m/c.srt"), ("d.srt", "/m/d.srt"), ("e.srt", "/m/e.srt")])
        (fun _ => 1)).count [("e.srt", "/m/e.srt")] = 2 := by decide

/-- Claim C9 (refuted, code bug): with the cancellation Event set before
any chunk is submitted, nothing is committed (the original is untouched,
no temp output is written) and the fingerprint store file is unchanged —
but the run does NOT terminate cleanly: line 537 evaluates
`cancel_flag and cancel_flag()`, CALLING the threading.Event, so the run
raises TypeError.  The claim requires termination without raising. -/
theorem C9_cancel_before_submit_raises_typeerror :
    (batch_translate true true true (fun s => some s) ["API"] 4 (fun i => i)
        "/media/subs" [("a.srt", "/media/subs/a.srt")] (some true)
        (fsWrite "/media/subs/a.srt" (.good ["hello"]) fsEmpty) none).err
        = some .typeError ∧
    (batch_translate true true true (fun s => some s) ["API"] 4 (fun i => i)
        "/media/subs" [("a.srt", "/media/subs/a.srt")] (some true)
        (fsWrite "/media/subs/a.srt" (.good ["hello"]) fsEmpty) none).fs
        "/media/subs/a.srt" = some (.good ["hello"]) ∧
    (batch_translate true true true (fun s => some s) ["API"] 4 (fun i => i)
        "/media/subs" [("a.srt", "/media/subs/a.srt")] (some true)
        (fsWrite "/media/subs/a.srt" (.good ["hello"]) fsEmpty) none).fs
        "/media/subs/temp_translated/a.srt" = none ∧
    (batch_translate true true true (fun s => some s) ["API"] 4 (fun i => i)
        "/media/subs" [("a.srt", "/media/subs/a.srt")] (some true)
        (fsWrite "/media/subs/a.srt" (.good ["hello"]) fsEmpty) none).storeFile
        = none ∧
    (batch_translate true true true (fun s => some s) ["API"] 4 (fun i => i)
        "/media/subs" [("a.srt", "/media/subs/a.srt")] (some true)
        (fsWrite "/media/subs/a.srt" (.good ["hello"]) fsEmpty) none).log
        = [] := by decide

/-- Unrolling of the retry loop when every translator call raises: the
loop performs one call per attempt index, sleeps after every non-final
attempt, and re-raises on the final one. -/
theorem retryGo_all_fail (call : Nat → Option String) (delay : Nat → ℚ)
    (text : String) (maxR : Nat) (hcall : ∀ i, call i = none) :
    ∀ len, 1 ≤ len → ∀ start calls acc, start + len = maxR →
      retryGo call delay text maxR (List.range' start len) calls acc =
        ⟨.error (), calls + len, acc.reverse ++ (List.range' start (len - 1)).map delay⟩ := by
  intro len
  induction len with
  | zero => omega
  | succ l ih =>
    intro _ start calls acc hsum
    rw [List.range'_succ]
    simp only [retryGo, hcall start]
    cases l with
    | zero =>
      rw [if_pos hsum]
      simp
    | succ l' =>
      rw [if_neg (by omega)]
      rw [ih (by omega) (start + 1) (calls + 1) (delay start :: acc) (by omega)]
      simp only [RetryTrace.mk.injEq, List.reverse_cons, List.append_assoc,
        Nat.add_sub_cancel, List.range'_succ, List.map_cons, true_and]
      constructor
      · omega
      · simp

/-- Unrolling of the retry loop when the translator raises on the first k
attempts and returns on attempt k: the loop returns that value after k + 1
calls, having slept once per failed attempt. -/
theorem retryGo_success (call : Nat → Option String) (delay : Nat → ℚ)
    (text : String) (maxR : Nat) (out : String) :
    ∀ k len start calls acc, k < len → start + len = maxR →
      (∀ i, i < k → call (start + i) = none) → call (start + k) = some out →
      retryGo call delay text maxR (List.range' start len) calls acc =
        ⟨.ok out, calls + (k + 1), acc.reverse ++ (List.range' start k).map delay⟩ := by
  intro k
  induction k with
  | zero =>
    intro len start calls acc hk hsum hfail hsucc
    obtain ⟨l, rfl⟩ : ∃ l, len = l + 1 := ⟨len - 1, by omega⟩
    rw [List.range'_succ]
    simp only [retryGo, show call start = some out from by simpa using hsucc]
    simp
  | succ k' ih =>
    intro len start calls acc hk hsum hfail hsucc
    obtain ⟨l, rfl⟩ : ∃ l, len = l + 1 := ⟨len - 1, by omega⟩
    rw [List.range'_succ]
    simp only [retryGo, show call start = none from by simpa using hfail 0 (by omega)]
    rw [if_neg (by omega)]
    rw [ih l (start + 1) (calls + 1) (delay start :: acc) (by omega) (by omega)
      (fun i hi => by
        rw [show start + 1 + i = start + (i + 1) from by omega]
        exact hfail (i + 1) (by omega))
      (by rw [show start + 1 + k' = start + (k' + 1) from by omega]; exact hsucc)]
    simp only [RetryTrace.mk.injEq, List.reverse_cons, List.append_assoc,
      List.range'_succ, List.map_cons, true_and]
    constructor
    · omega
    · simp

/-- Claim C4 (confirmed): for any max_retries at least 1 and any translator
stub, translate_with_retry returns the transformed text after k + 1 calls
when the stub fails on exactly k earlier attempts and then succeeds
(k below the bound), and raises after exactly max_retries calls when the
stub always fails; one delay drawn from the uniform(1, 3) oracle is slept
between each pair of consecutive attempts, and (with the oracle's support
in that range) every slept delay lies in the interval from 1 to 3. -/
theorem C4_bounded_retry (call : Nat → Option String) (delay : Nat → ℚ)
    (text : String) (mr : Int) (hmr : 1 ≤ mr)
    (hdelay : ∀ i, 1 ≤ delay i ∧ delay i ≤ 3) :
    (∀ k out, k < mr.toNat → (∀ i, i < k → call i = none) → call k = some out →
      translate_with_retry call text mr delay =
        ⟨.ok out, k + 1, (List.range k).map delay⟩ ∧
      ∀ q ∈ (List.range k).map delay, 1 ≤ q ∧ q ≤ 3) ∧
    ((∀ i, call i = none) →
      translate_with_retry call text mr delay =
        ⟨.error (), mr.toNat, (List.range (mr.toNat - 1)).map delay⟩ ∧
      ∀ q ∈ (List.range (mr.toNat - 1)).map delay, 1 ≤ q ∧ q ≤ 3) := by
  constructor
  · intro k out hk hfail hsucc
    constructor
    · rw [translate_with_retry, List.range_eq_range']
      rw [retryGo_success call delay text mr.toNat out k mr.toNat 0 0 [] hk
        (Nat.zero_add _) (fun i hi => by simpa using hfail i hi)
        (by simpa using hsucc)]
      simp [List.range_eq_range']
    · intro q hq
      obtain ⟨i, _, rfl⟩ := List.mem_map.mp hq
      exact hdelay i
  · intro hfail
    constructor
    · rw [translate_with_retry, List.range_eq_range']
      rw [retryGo_all_fail call delay text mr.toNat hfail mr.toNat (by omega) 0 0 []
        (Nat.zero_add _)]
      simp [List.range_eq_range']
    · intro q hq
      obtain ⟨i, _, rfl⟩ := List.mem_map.mp hq
      exact hdelay i

/-- Witness for C4: a stub failing twice then succeeding on the third of
three allowed attempts yields that value after three calls and two slept
delays, and an always-failing stub raises after exactly three calls. -/
theorem C4_bounded_retry_witness :
    translate_with_retry (fun n => if n = 2 then some "xin chao" else none)
        "hello" 3 (fun _ => 2) = ⟨.ok "xin chao", 3, [2, 2]⟩ ∧
    translate_with_retry (fun _ => none) "hello" 3 (fun _ => 2) =
      ⟨.error (), 3, [2, 2]⟩ := by
  constructor
  · exact ((C4_bounded_retry (fun n => if n = 2 then some "xin chao" else none)
      (fun _ => 2) "hello" 3 (by norm_num) (fun i => by norm_num)).1 2 "xin chao"
      (by norm_num) (fun i hi => if_neg (by omega)) rfl).1
  · exact ((C4_bounded_retry (fun _ => none) (fun _ => 2) "hello" 3 (by norm_num)
      (fun i => by norm_num)).2 (fun i => rfl)).1

/-- Claim C10 (confirmed): with max_retries at most 0, `range(max_retries)`
is empty, so both retry wrappers perform zero translator calls and fall
through to the trailing `return text`, returning the input unchanged. -/
theorem C10_nonpositive_retries (call : Nat → Option String) (text : String)
    (delay : Nat → ℚ) (mr : Int) (hmr : mr ≤ 0) :
    translate_with_retry call text mr delay = ⟨.ok text, 0, []⟩ ∧
    hf_translate_with_retry call text mr delay = ⟨.ok text, 0, []⟩ := by
  have h0 : mr.toNat = 0 := Int.toNat_of_nonpos hmr
  constructor <;>
    simp [translate_with_retry, hf_translate_with_retry, h0, retryGo]

/-- Witness for C10: with max_retries = -2 (and also 0), both wrappers
return the input text with zero calls and zero sleeps. -/
theorem C10_nonpositive_retries_witness :
    translate_with_retry (fun _ => some "ignored") "hello" (-2) (fun _ => 2) =
      ⟨.ok "hello", 0, []⟩ ∧
    hf_translate_with_retry (fun _ => some "ignored") "hello" (-2) (fun _ => 2) =
      ⟨.ok "hello", 0, []⟩ := by
  exact C10_nonpositive_retries (fun _ => some "ignored") "hello" (fun _ => 2)
    (-2) (by norm_num)

/-! ## Round-trip of the mask/unmask substitutions (claim C6) -/

/-- The unmask scan of the empty string is empty at any fuel. -/
theorem unmaskGo_nil (terms : List (List Char)) :
    ∀ fuel, unmaskGo terms fuel [] = []
  | 0 => rfl
  | _ + 1 => rfl

/-- A case-insensitive prefix match never overruns the text. -/
theorem ciMatches_length :
    ∀ {t s : List Char}, ciMatches t s = true → t.length ≤ s.length
  | [], _, _ => Nat.zero_le _
  | _ :: _, [], h => by simp [ciMatches] at h
  | _ :: as, _ :: bs, h => by
    simp only [ciMatches, Bool.and_eq_true] at h
    simpa using ciMatches_length (t := as) (s := bs) h.2

/-- A match shorter than the left part of an append ignores the right
part. -/
theorem ciMatches_append_left :
    ∀ {t m : List Char} (x : List Char), t.length ≤ m.length →
      ciMatches t (m ++ x) = ciMatches t m
  | [], _, _, _ => rfl
  | _ :: _, [], _, h => by simp at h
  | a :: as, b :: bs, x, h => by
    have ih := ciMatches_append_left (t := as) (m := bs) x (by simpa using h)
    simp only [List.cons_append, ciMatches, List.append_eq, ih]

/-- ASCII lower-casing only produces an underscore from an underscore. -/
theorem lowerChar_eq_underscore {c : Char} (h : lowerChar c = '_') :
    c = '_' := by
  unfold lowerChar at h
  cases hf : lowerPairs.find? (fun p => p.1 == c) with
  | none => rw [hf] at h; exact h
  | some p =>
    rw [hf] at h
    simp at h
    have hp : p ∈ lowerPairs := List.mem_of_find?_eq_some hf
    have : ∀ q ∈ lowerPairs, q.2 ≠ '_' := by decide
    exact absurd h (this p hp)

/-- ASCII lower-casing never produces an underscore from an alphanumeric
character. -/
theorem lowerChar_ne_underscore_of_alnum {c : Char}
    (h : c.isAlphanum = true) : lowerChar c ≠ '_' := by
  intro heq
  have hc := lowerChar_eq_underscore heq
  subst hc
  exact absurd h (by decide)

/-- An alphanumeric character never matches an underscore
case-insensitively. -/
theorem ciEqChar_underscore_of_alnum {c : Char} (h : c.isAlphanum = true) :
    ciEqChar c '_' = false := by
  have h1 : lowerChar '_' = '_' := by decide
  simp only [ciEqChar, h1, beq_eq_false_iff_ne, ne_eq]
  exact lowerChar_ne_underscore_of_alnum h

/-- An all-alphanumeric pattern longer than m cannot match m followed by
an underscore. -/
theorem ciMatches_underscore_false :
    ∀ (m t x : List Char), (∀ c ∈ t, c.isAlphanum = true) →
      m.length < t.length → ciMatches t (m ++ '_' :: x) = false
  | [], [], _, _, hlt => by simp at hlt
  | [], a :: as, x, halnum, _ => by
    have h := ciEqChar_underscore_of_alnum (halnum a (List.mem_cons_self a as))
    simp only [List.nil_append, ciMatches, h, Bool.false_and]
  | _ :: _, [], _, _, hlt => by simp at hlt
  | b :: bs, a :: as, x, halnum, hlt => by
    have ih := ciMatches_underscore_false bs as x
      (fun c hc => halnum c (List.mem_cons_of_mem a hc)) (by simpa using hlt)
    simp only [List.cons_append, ciMatches, List.append_eq, ih, Bool.and_false]

/-- What a successful tryMaskTerms tells us: some nonempty term of the
list matched case-insensitively, and the match and the remainder are the
corresponding take and drop of the text. -/
theorem tryMaskTerms_spec :
    ∀ {terms : List (List Char)} {s m r : List Char},
      tryMaskTerms terms s = some (m, r) →
      ∃ t ∈ terms, t ≠ [] ∧ ciMatches t s = true ∧
        m = s.take t.length ∧ r = s.drop t.length
  | [], _, _, _, h => by simp [tryMaskTerms] at h
  | t :: ts, s, m, r, h => by
    by_cases ht : t = []
    · rw [tryMaskTerms, if_pos ht] at h
      obtain ⟨t', ht', rest⟩ := tryMaskTerms_spec h
      exact ⟨t', List.mem_cons_of_mem t ht', rest⟩
    · rw [tryMaskTerms, if_neg ht] at h
      by_cases hcond : (ciMatches t s &&
          hasBoundary ((s.take t.length).getLast?) ((s.drop t.length).head?)) = true
      · rw [if_pos hcond] at h
        have hinj := Option.some.inj h
        rw [Prod.mk.injEq] at hinj
        rw [Bool.and_eq_true] at hcond
        exact ⟨t, List.mem_cons_self t ts, ht, hcond.1, hinj.1.symm, hinj.2.symm⟩
      · rw [if_neg hcond] at h
        obtain ⟨t', ht', rest⟩ := tryMaskTerms_spec h
        exact ⟨t', List.mem_cons_of_mem t ht', rest⟩

/-- dropUU fails on any list whose head is not an underscore. -/
theorem dropUU_cons_ne {c : Char} (hc : ¬ c = '_') (l : List Char) :
    dropUU (c :: l) = none := by
  cases l with
  | nil => rfl
  | cons c2 r => simp [dropUU, hc]

/-- The unmask scan at a wrapper produced by the mask scan recovers the
wrapped text exactly: given underscore-free matched text m for which some
all-alphanumeric term of the list is a case-insensitive full match, the
alternation matches m itself and consumes the closing "__". -/
theorem tryUnmaskTerms_wrapper :
    ∀ {terms : List (List Char)},
      (∀ t ∈ terms, t ≠ [] ∧ ∀ c ∈ t, c.isAlphanum = true) →
      ∀ {m : List Char} (x : List Char), (∀ c ∈ m, c ≠ '_') →
      (∃ t ∈ terms, t.length = m.length ∧ ciMatches t m = true) →
      tryUnmaskTerms terms (m ++ '_' :: '_' :: x) = some (m, x)
  | [], _, _, _, _, hex => by simp at hex
  | t0 :: ts, hterms, m, x, hm, hex => by
    obtain ⟨ht0ne, ht0alnum⟩ := hterms t0 (List.mem_cons_self t0 ts)
    have hts : ∀ t ∈ ts, t ≠ [] ∧ ∀ c ∈ t, c.isAlphanum = true :=
      fun t ht => hterms t (List.mem_cons_of_mem t0 ht)
    have hrec_of_mem_ts :
        (∃ t ∈ ts, t.length = m.length ∧ ciMatches t m = true) →
        tryUnmaskTerms ts (m ++ '_' :: '_' :: x) = some (m, x) :=
      fun hex' => tryUnmaskTerms_wrapper hts x hm hex'
    have hex_ts_of_ne : t0.length = m.length → ciMatches t0 m = false →
        ∃ t ∈ ts, t.length = m.length ∧ ciMatches t m = true := by
      intro _ hci0
      obtain ⟨t, htmem, hlen, hci⟩ := hex
      rcases List.mem_cons.mp htmem with rfl | hmem
      · rw [hci] at hci0; cases hci0
      · exact ⟨t, hmem, hlen, hci⟩
    have hex_ts_of_len : t0.length ≠ m.length →
        ∃ t ∈ ts, t.length = m.length ∧ ciMatches t m = true := by
      intro hne
      obtain ⟨t, htmem, hlen, hci⟩ := hex
      rcases List.mem_cons.mp htmem with rfl | hmem
      · exact absurd hlen hne
      · exact ⟨t, hmem, hlen, hci⟩
    rw [tryUnmaskTerms, if_neg ht0ne]
    rcases Nat.lt_trichotomy t0.length m.length with hlt | heq | hgt
    · cases hci : ciMatches t0 (m ++ '_' :: '_' :: x) with
      | false =>
        rw [if_neg (by simp)]
        exact hrec_of_mem_ts (hex_ts_of_len (Nat.ne_of_lt hlt))
      | true =>
        rw [if_pos rfl]
        rw [List.drop_append_of_le_length (Nat.le_of_lt hlt)]
        have hdlen : 0 < (m.drop t0.length).length := by
          rw [List.length_drop]; omega
        obtain ⟨hd, tl, hdrop⟩ : ∃ hd tl, m.drop t0.length = hd :: tl := by
          cases hdt : m.drop t0.length with
          | nil => rw [hdt] at hdlen; simp at hdlen
          | cons hd tl => exact ⟨hd, tl, rfl⟩
        have hhd : hd ≠ '_' := by
          apply hm
          exact List.drop_subset t0.length m (hdrop ▸ List.mem_cons_self hd tl)
        rw [hdrop, List.cons_append, dropUU_cons_ne hhd]
        exact hrec_of_mem_ts (hex_ts_of_len (Nat.ne_of_lt hlt))
    · rw [ciMatches_append_left _ (Nat.le_of_eq heq)]
      cases hci : ciMatches t0 m with
      | false =>
        rw [if_neg (by simp)]
        exact hrec_of_mem_ts (hex_ts_of_ne heq hci)
      | true =>
        rw [if_pos rfl]
        rw [List.drop_left' heq.symm, List.take_left' heq.symm]
        simp [dropUU]
    · have hci : ciMatches t0 (m ++ '_' :: '_' :: x) = false :=
        ciMatches_underscore_false m t0 ('_' :: x) ht0alnum hgt
      rw [hci, if_neg (by simp)]
      exact hrec_of_mem_ts (hex_ts_of_len (by omega))

/-- Unfolding of the mask scan at a matching position. -/
theorem maskGo_cons_some (terms : List (List Char)) (mf : Nat)
    (prev : Option Char) {c : Char} {cs m r : List Char}
    (h : maskStep terms prev c cs = some (m, r)) :
    maskGo terms (mf + 1) prev (c :: cs) =
      '_' :: '_' :: (m ++ '_' :: '_' :: maskGo terms mf m.getLast? r) := by
  rw [maskGo, h]

/-- Unfolding of the mask scan at a non-matching position. -/
theorem maskGo_cons_none (terms : List (List Char)) (mf : Nat)
    (prev : Option Char) {c : Char} {cs : List Char}
    (h : maskStep terms prev c cs = none) :
    maskGo terms (mf + 1) prev (c :: cs) = c :: maskGo terms mf (some c) cs := by
  rw [maskGo, h]

/-- The unmask step at a "__" prefix runs the alternation on the rest. -/
theorem unmaskStep_uu (terms : List (List Char)) (rest : List Char) :
    unmaskStep terms '_' ('_' :: rest) = tryUnmaskTerms terms rest := by
  simp [unmaskStep]

/-- The unmask step at a non-underscore character fails. -/
theorem unmaskStep_ne (terms : List (List Char)) {c : Char}
    (hc : ¬ c = '_') (cs : List Char) : unmaskStep terms c cs = none := by
  simp [unmaskStep, hc]

/-- Unfolding of the unmask scan at a matching position. -/
theorem unmaskGo_cons_some (terms : List (List Char)) (u : Nat) {c : Char}
    {cs m r : List Char} (h : unmaskStep terms c cs = some (m, r)) :
    unmaskGo terms (u + 1) (c :: cs) = m ++ unmaskGo terms u r := by
  rw [unmaskGo, h]

/-- Unfolding of the unmask scan at a non-matching position. -/
theorem unmaskGo_cons_none (terms : List (List Char)) (u : Nat) {c : Char}
    {cs : List Char} (h : unmaskStep terms c cs = none) :
    unmaskGo terms (u + 1) (c :: cs) = c :: unmaskGo terms u cs := by
  rw [unmaskGo, h]

/-- Round trip of the two scans: for a term list of nonempty
all-alphanumeric terms and an underscore-free text, unmasking the masked
text recovers the text, at any sufficient fuels. -/
theorem roundtrip_go (terms : List (List Char))
    (hterms : ∀ t ∈ terms, t ≠ [] ∧ ∀ c ∈ t, c.isAlphanum = true) :
    ∀ mfuel (s : List Char) (prev : Option Char), s.length ≤ mfuel →
      (∀ c ∈ s, c ≠ '_') →
      ∀ ufuel, (maskGo terms mfuel prev s).length ≤ ufuel →
      unmaskGo terms ufuel (maskGo terms mfuel prev s) = s := by
  intro mfuel
  induction mfuel with
  | zero =>
    intro s prev hlen _ ufuel _
    have hs : s = [] := List.eq_nil_of_length_eq_zero (Nat.le_zero.mp hlen)
    subst hs
    exact unmaskGo_nil terms ufuel
  | succ mf ih =>
    intro s prev hlen hchars ufuel huf
    cases s with
    | nil => exact unmaskGo_nil terms ufuel
    | cons c cs =>
      have hc : c ≠ '_' := hchars c (List.mem_cons_self c cs)
      cases hstep : maskStep terms prev c cs with
      | none =>
        rw [maskGo_cons_none terms mf prev hstep] at huf ⊢
        obtain ⟨u, rfl⟩ : ∃ u, ufuel = u + 1 := ⟨ufuel - 1, by simp at huf; omega⟩
        rw [unmaskGo_cons_none terms u (unmaskStep_ne terms hc _)]
        have hcs : cs.length ≤ mf := by simpa using hlen
        rw [ih cs (some c) hcs (fun ch hch => hchars ch (List.mem_cons_of_mem c hch))
          u (by simp at huf; omega)]
      | some mr =>
        obtain ⟨m, r⟩ := mr
        have htry : tryMaskTerms terms (c :: cs) = some (m, r) := by
          unfold maskStep at hstep
          split at hstep
          · exact hstep
          · exact Option.noConfusion hstep
        obtain ⟨t, htmem, htne, hcimatch, hm_take, hr_drop⟩ := tryMaskTerms_spec htry
        have htlen : t.length ≤ (c :: cs).length := ciMatches_length hcimatch
        have hmlen : m.length = t.length := by
          rw [hm_take, List.length_take]; omega
        have htpos : 0 < t.length := List.length_pos.mpr htne
        have hmr_eq : m ++ r = c :: cs := by
          rw [hm_take, hr_drop]; exact List.take_append_drop _ _
        have hm_chars : ∀ ch ∈ m, ch ≠ '_' :=
          fun ch hch => hchars ch (hmr_eq ▸ List.mem_append_left r hch)
        have hr_chars : ∀ ch ∈ r, ch ≠ '_' :=
          fun ch hch => hchars ch (hmr_eq ▸ List.mem_append_right m hch)
        have hlensum : m.length + r.length = cs.length + 1 := by
          have := congrArg List.length hmr_eq
          simpa using this
        have hr_len : r.length ≤ mf := by
          have hb : (c :: cs).length = cs.length + 1 := by simp
          omega
        have hci_m : ciMatches t m = true := by
          have h2 : ciMatches t (m ++ r) = true := by rw [hmr_eq]; exact hcimatch
          rwa [ciMatches_append_left r (Nat.le_of_eq hmlen.symm)] at h2
        rw [maskGo_cons_some terms mf prev hstep] at huf ⊢
        have hufge : 4 + m.length + (maskGo terms mf m.getLast? r).length ≤ ufuel := by
          simp at huf; omega
        obtain ⟨u, rfl⟩ : ∃ u, ufuel = u + 1 := ⟨ufuel - 1, by omega⟩
        have hstep2 : unmaskStep terms '_' ('_' :: (m ++ '_' :: '_' ::
            maskGo terms mf m.getLast? r)) =
            some (m, maskGo terms mf m.getLast? r) := by
          rw [unmaskStep_uu]
          exact tryUnmaskTerms_wrapper hterms (maskGo terms mf m.getLast? r)
            hm_chars ⟨t, htmem, hmlen.symm, hci_m⟩
        rw [unmaskGo_cons_some terms u hstep2]
        rw [ih r m.getLast? hr_len hr_chars u (by omega)]
        exact hmr_eq

/-- Claim C6, counterexample: for the term list ["API"] and the text
"__API__", masking leaves the text unchanged (no word boundary separates
the underscores from API), yet unmasking strips the underscores, so the
round trip with the identity transform returns "API", not the original
text.  The claim quantifies over every text and term set, so it fails. -/
theorem C6_roundtrip_counterexample :
    unmaskStr ["API"] (maskStr ["API"] "__API__") ≠ "__API__" := by decide

/-- Claim C6 as amended (proved): for every term list of nonempty
alphanumeric terms (the shape load_it_terms produces from the default and
typical term files) and every text containing no underscore, applying the
mask substitution and then the unmask substitution yields the original
text exactly, when the transform between them is the identity. -/
theorem C6_roundtrip_amended (terms : List String) (text : String)
    (hterms : ∀ t ∈ terms, t.toList ≠ [] ∧ ∀ c ∈ t.toList, c.isAlphanum = true)
    (htext : ∀ c ∈ text.toList, c ≠ '_') :
    unmaskStr terms (maskStr terms text) = text := by
  unfold maskStr unmaskStr
  have hlist : (String.mk (maskChars (terms.map String.toList) text.toList)).toList
      = maskChars (terms.map String.toList) text.toList := rfl
  rw [hlist]
  have hterms' : ∀ t ∈ terms.map String.toList,
      t ≠ [] ∧ ∀ c ∈ t, c.isAlphanum = true := by
    intro t' ht'
    obtain ⟨t, ht, rfl⟩ := List.mem_map.mp ht'
    exact hterms t ht
  have hrt : unmaskChars (terms.map String.toList)
      (maskChars (terms.map String.toList) text.toList) = text.toList := by
    unfold maskChars unmaskChars
    exact roundtrip_go (terms.map String.toList) hterms' text.toList.length
      text.toList none (Nat.le_refl _) htext _ (Nat.le_refl _)
  rw [hrt]
  cases text with
  | mk data => rfl

/-- Witness for the amended C6: the default built-in term list and a
concrete underscore-free text round-trip to themselves. -/
theorem C6_roundtrip_amended_witness :
    unmaskStr ["server", "API", "cloud"]
        (maskStr ["server", "API", "cloud"] "the api lives in the Cloud") =
      "the api lives in the Cloud" :=
  C6_roundtrip_amended ["server", "API", "cloud"] "the api lives in the Cloud"
    (by decide) (by decide)

end TransFolder
